import Mathlib

/-!
Verification of the host-integration layer of the `hazelnut` daemon
(`src/lib.rs`, `src/autostart.rs`), as a shallow embedding in Lean.

Strings from the Rust code are modelled as `List Char`; machine integers
are modelled as `Nat` with explicit range checks / reductions mod `2 ^ w`
where the Rust types (`u32`, `u64`) make them matter.
-/

/-- Convenience: the character list of a string literal. -/
def strL (s : String) : List Char := s.data

/-- Numeric value of an ASCII digit accumulated left to right; fails on the
first non-digit. Mirrors the digit-consuming core of Rust integer parsing. -/
def parseDigitsAux : List Char → Nat → Option Nat
  | [], acc => some acc
  | c :: rest, acc =>
    if c.isDigit then parseDigitsAux rest (acc * 10 + (c.toNat - 48)) else none

/-- Parse a non-empty all-digit character list as a natural number
(no size bound). This is the literal reading of a "numeric component". -/
def parseDigits : List Char → Option Nat
  | [] => none
  | c :: rest => parseDigitsAux (c :: rest) 0

/-- Embedding of Rust `str::parse::<uN>()` for an unsigned `bits`-bit integer:
an optional leading plus sign, then one or more ASCII digits, and the value
must fit in `bits` bits, otherwise the parse fails (overflow is an error). -/
def parseUInt (bits : Nat) (s : List Char) : Option Nat :=
  let body := match s with
    | '+' :: rest => rest
    | _ => s
  match parseDigits body with
  | some n => if n < 2 ^ bits then some n else none
  | none => none

/-!
### Version comparison (`version_is_newer`, src/lib.rs lines 89-109)

The Rust closure `parse` is `v.split('-').next().unwrap_or(v)` followed by
`base.split('.').filter_map(|s| s.parse::<u32>().ok()).collect()`; the loop
compares positions 0,1,2 with `get(i).copied().unwrap_or(0)` and early
returns on the first strict difference.
-/

/-- The numeric components of a version string as the Rust code computes
them: strip from the first dash onward, split on dots, keep the pieces that
parse as `u32` (components that fail the `u32` parse are dropped). -/
def versionComponents (v : List Char) : List Nat :=
  let base := (v.splitOn '-').headD v
  (base.splitOn '.').filterMap (parseUInt 32)

/-- Embedding of `version_is_newer` (src/lib.rs): the `for i in 0..3` loop
with early `return` unrolled into nested conditionals. -/
def version_is_newer (latest current : List Char) : Bool :=
  let lp := versionComponents latest
  let cp := versionComponents current
  let l0 := lp.getD 0 0
  let c0 := cp.getD 0 0
  let l1 := lp.getD 1 0
  let c1 := cp.getD 1 0
  let l2 := lp.getD 2 0
  let c2 := cp.getD 2 0
  if l0 > c0 then true
  else if l0 < c0 then false
  else if l1 > c1 then true
  else if l1 < c1 then false
  else if l2 > c2 then true
  else if l2 < c2 then false
  else false

/-- Lexicographic strictly-greater test on three components: the first
differing position decides, equality everywhere gives `false`. This follows
the spec's description of the comparison rule. -/
def lexGt3 (a0 a1 a2 b0 b1 b2 : Nat) : Bool :=
  decide (a0 > b0) ||
    (decide (a0 = b0) &&
      (decide (a1 > b1) || (decide (a1 = b1) && decide (a2 > b2))))

/-- Version comparison as the claim words it, amended only in what counts as
a numeric component: components are kept iff they parse as an unsigned
32-bit integer, and positions 0,1,2 (missing treated as 0) are compared
lexicographically. -/
def specIsNewer (latest current : List Char) : Bool :=
  lexGt3
    ((versionComponents latest).getD 0 0)
    ((versionComponents latest).getD 1 0)
    ((versionComponents latest).getD 2 0)
    ((versionComponents current).getD 0 0)
    ((versionComponents current).getD 1 0)
    ((versionComponents current).getD 2 0)

/-- Version comparison exactly as the claim words it, with "numeric
component" read literally: any all-digit component is kept at its full
value, with no 32-bit bound. -/
def claimNumericComponents (v : List Char) : List Nat :=
  let base := (v.splitOn '-').headD v
  (base.splitOn '.').filterMap parseDigits

/-- The claim's comparison algorithm, literally: digit-string components of
any size, positions 0,1,2 compared lexicographically. -/
def claimIsNewerLiteral (latest current : List Char) : Bool :=
  lexGt3
    ((claimNumericComponents latest).getD 0 0)
    ((claimNumericComponents latest).getD 1 0)
    ((claimNumericComponents latest).getD 2 0)
    ((claimNumericComponents current).getD 0 0)
    ((claimNumericComponents current).getD 1 0)
    ((claimNumericComponents current).getD 2 0)

/-- The unrolled early-return comparison agrees with the lexicographic
strictly-greater test. -/
theorem earlyReturn_eq_lexGt3 (a0 a1 a2 b0 b1 b2 : Nat) :
    (if a0 > b0 then true
     else if a0 < b0 then false
     else if a1 > b1 then true
     else if a1 < b1 then false
     else if a2 > b2 then true
     else if a2 < b2 then false
     else false) = lexGt3 a0 a1 a2 b0 b1 b2 := by
  unfold lexGt3
  split_ifs <;> simp_all <;> omega

/-- Claim C1 fails as literally stated: the code drops the numeric component
`4294967296` (it does not fit in `u32`), so `version_is_newer` treats
`"4294967296"` as having no components and answers `false`, while the
claim's algorithm (any numeric component kept) answers `true`. -/
theorem C1_counterexample :
    version_is_newer (strL "4294967296") (strL "1") = false ∧
      claimIsNewerLiteral (strL "4294967296") (strL "1") = true := by
  constructor <;> decide

/-- Claim C1, amended: `version_is_newer` strips from the first dash onward,
splits on dots keeping only the components that parse as an unsigned 32-bit
integer (others, including numeric components of 2^32 or more, are
dropped; missing components are treated as 0), and compares positions
0,1,2 lexicographically, equality giving `false`; and the five concrete
examples of the claim hold. -/
theorem C1_version_is_newer :
    (∀ latest current, version_is_newer latest current = specIsNewer latest current) ∧
      version_is_newer (strL "1.2.3") (strL "1.2.0") = true ∧
      version_is_newer (strL "1.2.0-beta") (strL "1.2.0") = false ∧
      version_is_newer (strL "2.0.0") (strL "1.9.9") = true ∧
      version_is_newer (strL "1.0.0") (strL "1.0.1") = false ∧
      version_is_newer (strL "1.0") (strL "1.0.0") = false := by
  refine ⟨fun latest current => ?_, by decide, by decide, by decide, by decide, by decide⟩
  unfold version_is_newer specIsNewer
  exact earlyReturn_eq_lexGt3 _ _ _ _ _ _

/-!
### Uptime formatting (`format_uptime`, src/lib.rs lines 42-53)
-/

/-- Embedding of `format_uptime`: hours, minutes and seconds of the duration,
with the three `format!` branches of the source. -/
def format_uptime (running_secs : Nat) : String :=
  let hours := running_secs / 3600
  let mins := running_secs % 3600 / 60
  let secs := running_secs % 60
  if hours > 0 then
    toString hours ++ "h " ++ toString mins ++ "m " ++ toString secs ++ "s"
  else if mins > 0 then
    toString mins ++ "m " ++ toString secs ++ "s"
  else
    toString secs ++ "s"

/-- Uptime formatting as the spec words it: the full rendering with the
hour field dropped when the duration is under one hour and the minute field
additionally dropped when it is under one minute. -/
def specFormatUptime (n : Nat) : String :=
  (if 3600 ≤ n then toString (n / 3600) ++ "h " else "") ++
    (if 60 ≤ n then toString (n % 3600 / 60) ++ "m " else "") ++
    (toString (n % 60) ++ "s")

/-- Claim C7: `format_uptime` renders hours, minutes and seconds, dropping
leading zero units only (hours omitted when zero, hours and minutes omitted
when both are zero), and the three concrete examples of the claim hold. -/
theorem C7_format_uptime :
    (∀ n, format_uptime n = specFormatUptime n) ∧
      format_uptime 3661 = "1h 1m 1s" ∧
      format_uptime 65 = "1m 5s" ∧
      format_uptime 5 = "5s" := by
  refine ⟨fun n => ?_, by decide, by decide, by decide⟩
  unfold format_uptime specFormatUptime
  by_cases h1 : 3600 ≤ n
  · have hh : 0 < n / 3600 := by omega
    simp [hh, h1, (by omega : 60 ≤ n), String.append_assoc]
  · have hh : n / 3600 = 0 := by omega
    by_cases h2 : 60 ≤ n
    · have hm : 0 < n % 3600 / 60 := by omega
      simp [hh, hm, h1, h2, String.append_assoc, String.empty_append]
    · have hm : n % 3600 / 60 = 0 := by omega
      simp [hh, hm, h1, h2, String.empty_append]

/-!
### Process uptime (`read_process_uptime`, src/lib.rs lines 57-71)

File reads are modelled by their observed contents (`none` = the read
failed), and the Rust chain of `?` on `Option` by explicit matches. The
composite `parse::<f64>().ok()` plus the saturating `as u64` cast on the
first field of the uptime file is abstracted as the oracle `parseSecs`
(whose values are below `2 ^ 64` by the cast). Panicking operations are
modelled explicitly as `Except.error`: the `parts[21]` index and the
division by `clock_ticks`. The `u64` subtraction is reduced mod `2 ^ 64`,
the release-profile wrapping semantics of Rust integer overflow.
-/

/-- Embedding of Rust `split_whitespace`: split on whitespace characters and
drop the empty pieces. -/
def splitWS (l : List Char) : List (List Char) :=
  (l.splitOnP (fun c => c.isWhitespace)).filter (fun w => !w.isEmpty)

/-- Embedding of `read_process_uptime` for a fixed pid: the two pseudo-file
contents stand for `/proc/{pid}/stat` and `/proc/uptime`, and `clockTicks`
for `clock_ticks_per_sec()`. -/
def read_process_uptime (parseSecs : List Char → Option Nat)
    (statContent uptimeContent : Option (List Char)) (clockTicks : Nat) :
    Except String (Option String) :=
  match statContent with
  | none => .ok none
  | some stat =>
    let parts := splitWS stat
    if parts.length ≤ 21 then .ok none
    else
      match parts[21]? with
      | none => .error "index out of bounds"
      | some field =>
        match parseUInt 64 field with
        | none => .ok none
        | some startTicks =>
          match uptimeContent with
          | none => .ok none
          | some up =>
            match (splitWS up).head? with
            | none => .ok none
            | some first =>
              match parseSecs first with
              | none => .ok none
              | some uptimeSecs =>
                if clockTicks = 0 then .error "attempt to divide by zero"
                else
                  let startSecs := startTicks / clockTicks
                  let runningSecs := (uptimeSecs + 2 ^ 64 - startSecs) % 2 ^ 64
                  .ok (some (format_uptime runningSecs))

/-- Claim C3: for every content of the two pseudo-files (including missing
files, short files and unparsable fields) and any uptime-parse oracle,
`read_process_uptime` never reaches a panic (the result is always `ok`,
given that the platform clock-tick frequency is positive), a missing stat
or uptime file yields the explicit `none`, and a formatted string is only
ever produced when both files were actually readable. -/
theorem C3_read_process_uptime (parseSecs : List Char → Option Nat)
    (statContent uptimeContent : Option (List Char)) (clockTicks : Nat)
    (htps : 0 < clockTicks) :
    (read_process_uptime parseSecs statContent uptimeContent clockTicks).isOk = true ∧
      (statContent = none →
        read_process_uptime parseSecs statContent uptimeContent clockTicks = .ok none) ∧
      (uptimeContent = none →
        read_process_uptime parseSecs statContent uptimeContent clockTicks = .ok none) ∧
      (∀ s, read_process_uptime parseSecs statContent uptimeContent clockTicks = .ok (some s) →
        statContent ≠ none ∧ uptimeContent ≠ none) := by
  cases statContent with
  | none => simp [read_process_uptime, Except.isOk, Except.toBool]
  | some stat =>
    simp only [read_process_uptime]
    by_cases hlen : (splitWS stat).length ≤ 21
    · simp [hlen, Except.isOk, Except.toBool]
    · have h21 : 21 < (splitWS stat).length := by omega
      rw [List.getElem?_eq_getElem h21]
      simp only [hlen, if_false]
      cases hpu : parseUInt 64 (splitWS stat)[21] with
      | none => simp [Except.isOk, Except.toBool]
      | some startTicks =>
        cases uptimeContent with
        | none => simp [Except.isOk, Except.toBool]
        | some up =>
          cases hhd : (splitWS up).head? with
          | none => simp [hhd, Except.isOk, Except.toBool]
          | some first =>
            cases hps : parseSecs first with
            | none => simp [hhd, hps, Except.isOk, Except.toBool]
            | some uptimeSecs =>
              simp [hhd, hps, Nat.pos_iff_ne_zero.mp htps, Except.isOk, Except.toBool]

/-- A concrete stat-file content with 22 whitespace-separated fields whose
field at index 21 is 3500 clock ticks. -/
def statW : List Char :=
  strL "0 0 0 0 0 0 0 0 0 0 0 0 0 0 0 0 0 0 0 0 0 3500"

/-- A concrete uptime-parse oracle that reports 100 seconds of system
uptime. -/
def parseSecsW : List Char → Option Nat := fun _ => some 100

/-- Witness for claim C3 at a concrete input: with 22 stat fields, a
readable uptime file and 100 clock ticks per second, the call does not
panic. -/
theorem C3_witness :
    (read_process_uptime parseSecsW (some statW) (some (strL "100.25 350")) 100).isOk
      = true :=
  (C3_read_process_uptime parseSecsW (some statW) (some (strL "100.25 350")) 100
    (by decide)).1

/-!
### Path expansion (`expand_path`, src/lib.rs lines 112-148)

The regex `\$\{([^}]+)\}|\$([A-Za-z_][A-Za-z0-9_]*)` and
`Regex::replace_all` are embedded as a left-to-right scanner: at each `$`
the braced form is tried first, then the bare identifier form; an unset
variable leaves the whole matched text in place. The environment is the
oracle `env` (`none` = the variable is unset, as `std::env::var` errors).
The scanner carries a fuel argument equal to the input length, which the
wrapper `expand_path` always supplies; this makes it structurally
recursive while agreeing with the regex scan everywhere.
-/

/-- The opening brace character, written by code point. -/
def lbraceC : Char := '\x7b'

/-- The closing brace character, written by code point. -/
def rbraceC : Char := '\x7d'

/-- Test for `[A-Za-z_]`, the first character of a bare variable name. -/
def isIdentStart (c : Char) : Bool := c.isAlpha || c = '_'

/-- Test for `[A-Za-z0-9_]`, the remaining characters of a bare variable
name. -/
def isIdentChar (c : Char) : Bool := c.isAlphanum || c = '_'

/-- Split off the maximal `[A-Za-z0-9_]*` prefix. -/
def takeIdent : List Char → List Char × List Char
  | [] => ([], [])
  | c :: rest =>
    if isIdentChar c then
      let p := takeIdent rest
      (c :: p.1, p.2)
    else ([], c :: rest)

/-- Scan up to the first closing brace: returns the characters before it and
the characters after it, or `none` if there is no closing brace. -/
def scanToRbrace : List Char → Option (List Char × List Char)
  | [] => none
  | c :: rest =>
    if c = rbraceC then some ([], rest)
    else
      match scanToRbrace rest with
      | some p => some (c :: p.1, p.2)
      | none => none

/-- The braced variable form after `$`: an opening brace, one or more
non-brace characters, a closing brace (the regex branch `\$\{([^}]+)\}`,
whose content must be non-empty). -/
def takeBraced (l : List Char) : Option (List Char × List Char) :=
  match scanToRbrace l with
  | some p => if p.1 = [] then none else some p
  | none => none

/-- Try to match a variable reference in the input following a `$`: returns
the variable name, the full matched text (including the `$`), and the
remaining input. The braced alternative is tried first, as in the regex. -/
def tryRef (l : List Char) : Option (List Char × List Char × List Char) :=
  match l with
  | [] => none
  | c :: rest =>
    if c = lbraceC then
      match takeBraced rest with
      | some p => some (p.1, '$' :: lbraceC :: (p.1 ++ [rbraceC]), p.2)
      | none => none
    else if isIdentStart c then
      let p := takeIdent rest
      some (c :: p.1, '$' :: c :: p.1, p.2)
    else none

/-- The remainder returned by `takeIdent` is no longer than the input. -/
theorem takeIdent_length_le : ∀ l : List Char, (takeIdent l).2.length ≤ l.length := by
  intro l
  induction l with
  | nil => simp [takeIdent]
  | cons c rest ih =>
    simp only [takeIdent]
    split
    · simpa using Nat.le_succ_of_le ih
    · simp

/-- The remainder returned by `scanToRbrace` is strictly shorter than the
input. -/
theorem scanToRbrace_length_lt : ∀ l p, scanToRbrace l = some p → p.2.length < l.length := by
  intro l
  induction l with
  | nil => simp [scanToRbrace]
  | cons c rest ih =>
    intro p
    simp only [scanToRbrace]
    split
    · rintro h
      cases h
      simp
    · cases hs : scanToRbrace rest with
      | none => simp
      | some q =>
        rintro h
        cases h
        simpa using Nat.lt_succ_of_lt (ih q hs)

/-- The remainder returned by a successful `tryRef` is strictly shorter than
the input. -/
theorem tryRef_length_lt : ∀ l n o r, tryRef l = some (n, o, r) → r.length < l.length := by
  intro l n o r
  cases l with
  | nil => simp [tryRef]
  | cons c rest =>
    simp only [tryRef]
    split
    · cases hb : takeBraced rest with
      | none => simp
      | some p =>
        rintro h
        cases h
        have : p.2.length < rest.length := by
          unfold takeBraced at hb
          cases hs : scanToRbrace rest with
          | none => rw [hs] at hb; cases hb
          | some q =>
            rw [hs] at hb
            dsimp only at hb
            by_cases hq : q.1 = []
            · rw [if_pos hq] at hb; cases hb
            · rw [if_neg hq] at hb
              cases hb
              exact scanToRbrace_length_lt rest _ hs
        simpa using Nat.lt_succ_of_lt this
    · split
      · rintro h
        cases h
        simpa using Nat.lt_succ_of_le (takeIdent_length_le rest)
      · simp

/-- Fuel-indexed scanner for `Regex::replace_all` with the env-var regex:
at each `$` a reference match is replaced by the variable's value when set
and left verbatim when unset; all other characters are copied. One unit of
fuel is spent per step, and fuel at least the input length is always
enough. -/
def scanVars (env : List Char → Option (List Char)) : Nat → List Char → List Char
  | 0, l => l
  | _ + 1, [] => []
  | fuel + 1, c :: rest =>
    if c = '$' then
      match tryRef rest with
      | some (name, orig, rem) =>
        (match env name with
         | some v => v
         | none => orig) ++ scanVars env fuel rem
      | none => c :: scanVars env fuel rest
    else c :: scanVars env fuel rest

/-- Does the input contain a match of the env-var regex anywhere? Same
scan as `scanVars`, reporting whether any reference was found. -/
def hasRefFuel : Nat → List Char → Bool
  | 0, _ => false
  | _ + 1, [] => false
  | fuel + 1, c :: rest =>
    if c = '$' then
      match tryRef rest with
      | some _ => true
      | none => hasRefFuel fuel rest
    else hasRefFuel fuel rest

/-- Whether a path contains a `$VAR` or a braced variable reference. -/
def hasRef (l : List Char) : Bool := hasRefFuel l.length l

/-- Embedding of `Path::join` for a relative component: append with a
separator unless the base already ends with one. -/
def pathJoin (h s : List Char) : List Char :=
  if h.getLast? = some '/' then h ++ s else h ++ '/' :: s

/-- Embedding of `expand_path` (src/lib.rs): first the tilde prefix is
expanded against the home directory (when known), then environment
variable references are substituted. -/
def expand_path (home : Option (List Char)) (env : List Char → Option (List Char))
    (path : List Char) : List Char :=
  let expanded :=
    if path.take 2 = ['~', '/'] then
      match home with
      | some h => pathJoin h (path.drop 2)
      | none => path
    else if path = ['~'] then
      match home with
      | some h => h
      | none => path
    else path
  scanVars env expanded.length expanded

/-- The scanner maps the empty input to the empty output at any fuel. -/
theorem scanVars_nil (env : List Char → Option (List Char)) :
    ∀ fuel, scanVars env fuel [] = [] := by
  intro fuel
  cases fuel <;> rfl

/-- When the scan finds no reference, the scanner copies its input. -/
theorem scanVars_of_not_hasRef (env : List Char → Option (List Char)) :
    ∀ fuel l, hasRefFuel fuel l = false → scanVars env fuel l = l := by
  intro fuel
  induction fuel with
  | zero => intro l _; rfl
  | succ fuel ih =>
    intro l h
    cases l with
    | nil => rfl
    | cons c rest =>
      simp only [scanVars, hasRefFuel] at h ⊢
      by_cases hc : c = '$'
      · rw [if_pos hc] at h ⊢
        cases ht : tryRef rest with
        | some p =>
          rw [ht] at h
          simp at h
        | none =>
          rw [ht] at h
          dsimp only at h ⊢
          rw [ih rest h]
      · rw [if_neg hc] at h ⊢
        rw [ih rest h]

/-- Scanning a dollar-free prefix copies it and continues on the rest with
the corresponding fuel. -/
theorem scanVars_append_clean (env : List Char → Option (List Char)) :
    ∀ (pre t : List Char) (fuel : Nat), '$' ∉ pre →
      scanVars env (pre.length + fuel) (pre ++ t) = pre ++ scanVars env fuel t := by
  intro pre
  induction pre with
  | nil => intro t fuel _; simp
  | cons c pre ih =>
    intro t fuel hpre
    have hc : c ≠ '$' := by
      intro hcc
      exact hpre (hcc ▸ List.mem_cons_self c pre)
    have hlen : (c :: pre).length + fuel = (pre.length + fuel) + 1 := by
      simp only [List.length_cons]
      omega
    rw [hlen]
    show scanVars env ((pre.length + fuel) + 1) (c :: (pre ++ t)) = c :: (pre ++ scanVars env fuel t)
    simp only [scanVars, if_neg hc]
    exact congrArg (c :: .) (ih t fuel (fun hm => hpre (List.mem_cons_of_mem c hm)))

/-- An all-identifier-character list is consumed whole by `takeIdent`. -/
theorem takeIdent_all : ∀ l : List Char, (∀ x ∈ l, isIdentChar x = true) →
    takeIdent l = (l, []) := by
  intro l
  induction l with
  | nil => intro _; rfl
  | cons c rest ih =>
    intro h
    simp only [takeIdent, if_pos (h c (List.mem_cons_self c rest))]
    rw [ih (fun x hx => h x (List.mem_cons_of_mem c hx))]

/-- Scanning to the closing brace over brace-free content finds exactly that
content. -/
theorem scanToRbrace_append : ∀ name : List Char, rbraceC ∉ name →
    scanToRbrace (name ++ [rbraceC]) = some (name, []) := by
  intro name
  induction name with
  | nil => intro _; rfl
  | cons c rest ih =>
    intro h
    have hc : c ≠ rbraceC := fun hcc => h (hcc ▸ List.mem_cons_self c rest)
    show scanToRbrace (c :: (rest ++ [rbraceC])) = some (c :: rest, [])
    simp only [scanToRbrace, if_neg hc]
    rw [ih (fun hm => h (List.mem_cons_of_mem c hm))]

/-- A bare identifier directly after the dollar sign is matched whole, with
nothing left over. -/
theorem tryRef_bare (c : Char) (cs : List Char) (hc : isIdentStart c = true)
    (hcs : ∀ x ∈ cs, isIdentChar x = true) :
    tryRef (c :: cs) = some (c :: cs, '$' :: c :: cs, []) := by
  have hcb : c ≠ lbraceC := by
    intro hcc
    rw [hcc] at hc
    exact absurd hc (by decide)
  simp only [tryRef, if_neg hcb, if_pos hc]
  rw [takeIdent_all cs hcs]

/-- A non-empty brace-free name in braces directly after the dollar sign is
matched whole, with nothing left over. -/
theorem tryRef_braced (name : List Char) (hne : name ≠ []) (hnb : rbraceC ∉ name) :
    tryRef (lbraceC :: (name ++ [rbraceC]))
      = some (name, '$' :: lbraceC :: (name ++ [rbraceC]), []) := by
  simp only [tryRef, if_pos rfl, takeBraced]
  rw [scanToRbrace_append name hnb]
  simp [hne]

/-- When the path does not start with a tilde, `expand_path` is just the
variable scan. -/
theorem expand_path_no_tilde (home : Option (List Char))
    (env : List Char → Option (List Char)) (path : List Char)
    (h : path.take 1 ≠ ['~']) :
    expand_path home env path = scanVars env path.length path := by
  unfold expand_path
  cases path with
  | nil => simp
  | cons a l =>
    have ha : a ≠ '~' := by
      intro hc
      exact h (by simp [hc])
    rw [if_neg, if_neg]
    · intro hc
      cases hc
      exact ha rfl
    · intro hc
      simp only [List.take_succ_cons] at hc
      exact ha (List.cons.injEq .. ▸ hc).1

/-- Claim C10: `expand_path` is the identity on every path that does not
start with a tilde and contains no variable reference; and a bare or braced
variable reference whose variable is unset is left in the output as the
literal matched text (after an arbitrary reference-free prefix), not
replaced by the empty string. -/
theorem C10_expand_path :
    (∀ home env path, path.take 1 ≠ ['~'] → hasRef path = false →
      expand_path home env path = path) ∧
    (∀ home env pre c cs, isIdentStart c = true → (∀ x ∈ cs, isIdentChar x = true) →
      '$' ∉ pre → (pre ++ '$' :: c :: cs).take 1 ≠ ['~'] → env (c :: cs) = none →
      expand_path home env (pre ++ '$' :: c :: cs) = pre ++ '$' :: c :: cs) ∧
    (∀ home env pre name, name ≠ [] → rbraceC ∉ name →
      '$' ∉ pre → (pre ++ '$' :: lbraceC :: (name ++ [rbraceC])).take 1 ≠ ['~'] →
      env name = none →
      expand_path home env (pre ++ '$' :: lbraceC :: (name ++ [rbraceC]))
        = pre ++ '$' :: lbraceC :: (name ++ [rbraceC])) := by
  refine ⟨fun home env path h1 h2 => ?_, fun home env pre c cs hcid hcs hpre h1 henv => ?_,
    fun home env pre name hne hnb hpre h1 henv => ?_⟩
  · rw [expand_path_no_tilde home env path h1]
    exact scanVars_of_not_hasRef env path.length path h2
  · rw [expand_path_no_tilde home env _ h1]
    have hlen : (pre ++ '$' :: c :: cs).length = pre.length + (cs.length + 2) := by
      simp
    rw [hlen, scanVars_append_clean env pre ('$' :: c :: cs) (cs.length + 2) hpre]
    show pre ++ scanVars env (cs.length + 1 + 1) ('$' :: c :: cs) = pre ++ '$' :: c :: cs
    simp only [scanVars, if_pos rfl]
    rw [tryRef_bare c cs hcid hcs]
    dsimp only
    rw [henv]
    simp [scanVars_nil]
  · rw [expand_path_no_tilde home env _ h1]
    have hlen : (pre ++ '$' :: lbraceC :: (name ++ [rbraceC])).length
        = pre.length + (name.length + 3) := by
      simp
    rw [hlen,
      scanVars_append_clean env pre ('$' :: lbraceC :: (name ++ [rbraceC])) (name.length + 3) hpre]
    show pre ++ scanVars env (name.length + 2 + 1) ('$' :: lbraceC :: (name ++ [rbraceC]))
      = pre ++ '$' :: lbraceC :: (name ++ [rbraceC])
    simp only [scanVars, if_pos rfl]
    rw [tryRef_braced name hne hnb]
    dsimp only
    rw [henv]
    simp [scanVars_nil]

/-- A concrete environment oracle in which every variable is unset. -/
def envNone : List Char → Option (List Char) := fun _ => none

/-- Witness for claim C10 at concrete inputs: a reference-free path is kept
verbatim, and so is a reference to the unset variable HOME_DIR. -/
theorem C10_witness :
    expand_path none envNone (strL "/etc/hosts") = strL "/etc/hosts" ∧
      expand_path none envNone (strL "/data/" ++ '$' :: 'H' :: strL "OME_DIR")
        = strL "/data/" ++ '$' :: 'H' :: strL "OME_DIR" :=
  ⟨C10_expand_path.1 none envNone (strL "/etc/hosts") (by decide) (by decide),
    C10_expand_path.2.1 none envNone (strL "/data/") 'H' (strL "OME_DIR")
      (by decide) (by decide) (by decide) (by decide) rfl⟩

/-!
### Update runner (`run_update`, src/lib.rs lines 213-262)

Each external command invocation (`Command::status()`) is modelled by an
oracle from the command line to its outcome: `exited success display`
stands for `Ok(status)` (with `success = status.success()` and `display`
its rendering), and `launchFailed msg` for `Err(e)`. The function returns
the `Result` together with the ordered trace of the commands it ran; the
`brew update` refresh appears in the trace but its outcome is never
consulted, as in the source (`let _ = ...`).
-/

/-- Outcome of launching one external command. -/
inductive CmdOutcome where
  | exited (success : Bool) (display : String)
  | launchFailed (msg : String)

/-- Whether an outcome is a clean zero exit. -/
def CmdOutcome.isSuccess : CmdOutcome → Bool
  | .exited true _ => true
  | _ => false

/-- Embedding of the `PackageManager` enum (src/lib.rs). -/
inductive PackageManager where
  | cargo
  | homebrew (formula : String)

/-- The `cargo install hazelnut` command line. -/
def cargoInstallCmd : List String := ["cargo", "install", "hazelnut"]

/-- The `brew update` command line. -/
def brewUpdateCmd : List String := ["brew", "update"]

/-- The `brew upgrade {formula}` command line. -/
def brewUpgradeCmd (f : String) : List String := ["brew", "upgrade", f]

/-- The `brew reinstall {formula}` command line. -/
def brewReinstallCmd (f : String) : List String := ["brew", "reinstall", f]

/-- Embedding of `run_update` (src/lib.rs): the result plus the trace of
commands invoked, in order. -/
def run_update (pm : PackageManager) (exec : List String → CmdOutcome) :
    Except String Unit × List (List String) :=
  match pm with
  | .cargo =>
    match exec cargoInstallCmd with
    | .exited true _ => (.ok (), [cargoInstallCmd])
    | .exited false d => (.error ("Update failed with status: " ++ d), [cargoInstallCmd])
    | .launchFailed e => (.error ("Failed to run cargo: " ++ e), [cargoInstallCmd])
  | .homebrew f =>
    match exec (brewUpgradeCmd f) with
    | .exited true _ => (.ok (), [brewUpdateCmd, brewUpgradeCmd f])
    | .exited false _ =>
      match exec (brewReinstallCmd f) with
      | .exited true _ =>
        (.ok (), [brewUpdateCmd, brewUpgradeCmd f, brewReinstallCmd f])
      | .exited false d =>
        (.error ("Update failed with status: " ++ d),
          [brewUpdateCmd, brewUpgradeCmd f, brewReinstallCmd f])
      | .launchFailed e =>
        (.error ("Failed to run brew: " ++ e),
          [brewUpdateCmd, brewUpgradeCmd f, brewReinstallCmd f])
    | .launchFailed e =>
      (.error ("Failed to run brew: " ++ e), [brewUpdateCmd, brewUpgradeCmd f])

/-- Claim C9: with the cargo origin `run_update` invokes the install
command once and succeeds iff it exits zero, a launch failure giving a
textual error; with the homebrew origin the catalog refresh runs first with
its outcome ignored, then the upgrade; an upgrade that launches but exits
non-zero is retried exactly once with the reinstall command, whose zero
exit decides success; an upgrade launch failure, or a non-zero exit after
the reinstall fallback, yields a textual error and no further commands
run (the reinstall appears at most once in the trace). -/
theorem C9_run_update (exec : List String → CmdOutcome) (f : String) :
    ((run_update .cargo exec).2 = [cargoInstallCmd]) ∧
      ((run_update .cargo exec).1 = .ok () ↔ (exec cargoInstallCmd).isSuccess = true) ∧
      (∀ e, exec cargoInstallCmd = .launchFailed e →
        (run_update .cargo exec).1 = .error ("Failed to run cargo: " ++ e)) ∧
      ((run_update (.homebrew f) exec).2.take 2 = [brewUpdateCmd, brewUpgradeCmd f]) ∧
      ((exec (brewUpgradeCmd f)).isSuccess = true →
        run_update (.homebrew f) exec = (.ok (), [brewUpdateCmd, brewUpgradeCmd f])) ∧
      (∀ d, exec (brewUpgradeCmd f) = .exited false d →
        (run_update (.homebrew f) exec).2
            = [brewUpdateCmd, brewUpgradeCmd f, brewReinstallCmd f] ∧
          ((run_update (.homebrew f) exec).1 = .ok ()
            ↔ (exec (brewReinstallCmd f)).isSuccess = true)) ∧
      (∀ e, exec (brewUpgradeCmd f) = .launchFailed e →
        (run_update (.homebrew f) exec).1 = .error ("Failed to run brew: " ++ e) ∧
          (run_update (.homebrew f) exec).2 = [brewUpdateCmd, brewUpgradeCmd f]) ∧
      ((run_update (.homebrew f) exec).2.count (brewReinstallCmd f) ≤ 1) := by
  have hbu : brewUpdateCmd ≠ brewReinstallCmd f := by simp [brewUpdateCmd, brewReinstallCmd]
  have hbg : brewUpgradeCmd f ≠ brewReinstallCmd f := by
    simp [brewUpgradeCmd, brewReinstallCmd]
  cases hc : exec cargoInstallCmd with
  | exited s d =>
    cases hu : exec (brewUpgradeCmd f) with
    | exited su du =>
      cases su <;> cases s <;>
        cases hr : exec (brewReinstallCmd f) with
          | exited sr dr =>
            cases sr <;>
              simp_all [run_update, CmdOutcome.isSuccess, List.count_cons, hbu, hbg]
          | launchFailed e =>
            simp_all [run_update, CmdOutcome.isSuccess, List.count_cons, hbu, hbg]
    | launchFailed e =>
      cases s <;> simp_all [run_update, CmdOutcome.isSuccess, List.count_cons, hbu, hbg]
  | launchFailed e =>
    cases hu : exec (brewUpgradeCmd f) with
    | exited su du =>
      cases su <;>
        cases hr : exec (brewReinstallCmd f) with
          | exited sr dr =>
            cases sr <;>
              simp_all [run_update, CmdOutcome.isSuccess, List.count_cons, hbu, hbg]
          | launchFailed e2 =>
            simp_all [run_update, CmdOutcome.isSuccess, List.count_cons, hbu, hbg]
    | launchFailed e2 =>
      simp_all [run_update, CmdOutcome.isSuccess, List.count_cons, hbu, hbg]

/-- A concrete command oracle: the upgrade exits non-zero, everything else
exits zero. -/
def execW : List String → CmdOutcome := fun c =>
  if c = brewUpgradeCmd "hazelnut" then .exited false "1" else .exited true "0"

/-- Witness for claim C9 at a concrete oracle: a failing upgrade triggers
exactly one reinstall, whose clean exit makes the update succeed. -/
theorem C9_witness :
    (run_update (.homebrew "hazelnut") execW).2
        = [brewUpdateCmd, brewUpgradeCmd "hazelnut", brewReinstallCmd "hazelnut"] ∧
      (run_update (.homebrew "hazelnut") execW).1 = .ok () := by
  have h := (C9_run_update execW "hazelnut").2.2.2.2.2.1 "1" rfl
  exact ⟨h.1, h.2.mpr rfl⟩

/-!
### Autostart registrar (src/autostart.rs)

The platform, the home and config directories and the outcome of the
daemon-binary resolution (`get_daemon_binary_path`, which shells out to
`which` and probes fixed locations; only its resolved-or-`NotFound`
outcome matters here) are an explicit environment. The file system is a
store of directories and files keyed by segment paths; `create_dir_all`
inserts every missing ancestor, `fs::write` overwrites, `fs::remove_file`
removes a file. The best-effort `systemctl --user daemon-reload` child
process changes no modelled state and its result is discarded, as in the
source.
-/

/-- The platform, with the Linux systemd probe folded in (the source probes
`systemctl --user --version` at each call; within one call sequence we take
its answer as fixed). -/
inductive Platform where
  | macos
  | linux (systemdAvailable : Bool)
  | other

/-- Environment of one autostart operation. -/
structure AutoEnv where
  platform : Platform
  homeDir : Option (List String)
  configDir : Option (List String)
  daemonBinary : Option String

/-- The `io::ErrorKind` values the registrar distinguishes. -/
inductive IoErr where
  | unsupported
  | notFound
  | ioFailure
deriving DecidableEq

/-- A file-system path as a list of segments. -/
abbrev FsPath := List String

/-- The modelled file-system state: existing directories and files with
their contents. -/
structure FsState where
  dirs : List FsPath
  files : List (FsPath × String)

/-- Content lookup in the file store. -/
def lookupAssoc (p : FsPath) : List (FsPath × String) → Option String
  | [] => none
  | (q, c) :: rest => if q = p then some c else lookupAssoc p rest

/-- Overwrite-or-create in the file store (`fs::write`). -/
def updateAssoc (p : FsPath) (c : String) : List (FsPath × String) → List (FsPath × String)
  | [] => [(p, c)]
  | (q, d) :: rest => if q = p then (p, c) :: rest else (q, d) :: updateAssoc p c rest

/-- Removal from the file store (`fs::remove_file`). -/
def removeAssoc (p : FsPath) : List (FsPath × String) → List (FsPath × String)
  | [] => []
  | (q, d) :: rest => if q = p then rest else (q, d) :: removeAssoc p rest

/-- All non-empty prefixes of a path: the ancestors `create_dir_all`
ensures. -/
def prefixesOf (p : FsPath) : List FsPath :=
  (List.range p.length).map (fun i => p.take (i + 1))

/-- Embedding of `fs::create_dir_all`: adds every missing ancestor of the
directory. -/
def createDirAll (p : FsPath) (fs : FsState) : FsState :=
  { fs with dirs := fs.dirs ++ (prefixesOf p).filter (fun q => decide (q ∉ fs.dirs)) }

/-- Embedding of `fs::write`. -/
def writeFile (p : FsPath) (c : String) (fs : FsState) : FsState :=
  { fs with files := updateAssoc p c fs.files }

/-- Embedding of `Path::exists`: a file or a directory at the path. -/
def pathExistsB (p : FsPath) (fs : FsState) : Bool :=
  (lookupAssoc p fs.files).isSome || decide (p ∈ fs.dirs)

/-- Embedding of `get_autostart_path` (src/autostart.rs): the LaunchAgent
plist under home on macOS; the systemd user unit under home, or the XDG
autostart entry under the config directory, on Linux; nothing elsewhere. -/
def get_autostart_path (env : AutoEnv) : Option FsPath :=
  match env.platform with
  | .macos =>
    env.homeDir.map (fun h => h ++ ["Library", "LaunchAgents", "me.ricardodantas.hazelnutd.plist"])
  | .linux sysd =>
    if sysd then
      env.homeDir.map (fun h => h ++ [".config", "systemd", "user", "hazelnutd.service"])
    else
      env.configDir.map (fun c => c ++ ["autostart", "hazelnutd.desktop"])
  | .other => none

/-- The LaunchAgent plist rendered for a binary path (src/autostart.rs,
macOS branch of `get_autostart_content`). -/
def plistContent (b : String) : String :=
  "<?xml version=\"1.0\" encoding=\"UTF-8\"?>\n<!DOCTYPE plist PUBLIC \"-//Apple//DTD PLIST 1.0//EN\" \"http://www.apple.com/DTDs/PropertyList-1.0.dtd\">\n<plist version=\"1.0\">\n<dict>\n    <key>Label</key>\n    <string>me.ricardodantas.hazelnutd</string>\n    <key>ProgramArguments</key>\n    <array>\n        <string>"
    ++ b
    ++ "</string>\n        <string>run</string>\n    </array>\n    <key>RunAtLoad</key>\n    <true/>\n    <key>KeepAlive</key>\n    <false/>\n    <key>StandardOutPath</key>\n    <string>/tmp/hazelnutd.stdout.log</string>\n    <key>StandardErrorPath</key>\n    <string>/tmp/hazelnutd.stderr.log</string>\n</dict>\n</plist>\n"

/-- The systemd user unit rendered for a binary path (src/autostart.rs,
Linux systemd branch). -/
def systemdUnitContent (b : String) : String :=
  "[Unit]\nDescription=Hazelnut File Organizer Daemon\nAfter=default.target\n\n[Service]\nType=simple\nExecStart="
    ++ b
    ++ " run\nRestart=on-failure\nRestartSec=5\n\n[Install]\nWantedBy=default.target\n"

/-- The XDG desktop autostart entry rendered for a binary path
(src/autostart.rs, Linux fallback branch). -/
def desktopEntryContent (b : String) : String :=
  "[Desktop Entry]\nType=Application\nName=Hazelnut Daemon\nExec="
    ++ b
    ++ " run\nHidden=false\nNoDisplay=true\nX-GNOME-Autostart-enabled=true\n"

/-- Embedding of `get_autostart_content`: the binary is resolved first
(`NotFound` when it cannot be), then the platform template is rendered. -/
def get_autostart_content (env : AutoEnv) : Except IoErr String :=
  match env.daemonBinary with
  | none => .error .notFound
  | some b =>
    match env.platform with
    | .macos => .ok (plistContent b)
    | .linux sysd => .ok (if sysd then systemdUnitContent b else desktopEntryContent b)
    | .other => .error .unsupported

/-- Embedding of `is_enabled`: the descriptor path exists, `false` when
there is no known target. -/
def is_enabled (env : AutoEnv) (fs : FsState) : Bool :=
  match get_autostart_path env with
  | some p => pathExistsB p fs
  | none => false

/-- Embedding of `enable`: fail `Unsupported` without a target, create the
parent directories, render the content (resolving the binary), write the
descriptor. The parent creation precedes the binary resolution, as in the
source. -/
def enable (env : AutoEnv) (fs : FsState) : Except IoErr Unit × FsState :=
  match get_autostart_path env with
  | none => (.error .unsupported, fs)
  | some p =>
    let fs1 := createDirAll p.dropLast fs
    match get_autostart_content env with
    | .error e => (.error e, fs1)
    | .ok content => (.ok (), writeFile p content fs1)

/-- Embedding of `disable`: fail `Unsupported` without a target; remove the
descriptor if it exists (an existing directory at the path makes
`remove_file` fail); a missing descriptor is a no-op. -/
def disable (env : AutoEnv) (fs : FsState) : Except IoErr Unit × FsState :=
  match get_autostart_path env with
  | none => (.error .unsupported, fs)
  | some p =>
    if pathExistsB p fs then
      if (lookupAssoc p fs.files).isSome then
        (.ok (), { fs with files := removeAssoc p fs.files })
      else (.error .ioFailure, fs)
    else (.ok (), fs)

/-- Embedding of `toggle`: disable when enabled (returning `false`), enable
when disabled (returning `true`). -/
def toggle (env : AutoEnv) (fs : FsState) : Except IoErr Bool × FsState :=
  if is_enabled env fs then
    match disable env fs with
    | (.ok _, fs2) => (.ok false, fs2)
    | (.error e, fs2) => (.error e, fs2)
  else
    match enable env fs with
    | (.ok _, fs2) => (.ok true, fs2)
    | (.error e, fs2) => (.error e, fs2)

/-- Looking up the freshly written path finds the new content. -/
theorem lookupAssoc_updateAssoc_self (p : FsPath) (c : String) :
    ∀ l, lookupAssoc p (updateAssoc p c l) = some c := by
  intro l
  induction l with
  | nil => simp [updateAssoc, lookupAssoc]
  | cons qd rest ih =>
    obtain ⟨q, d⟩ := qd
    by_cases h : q = p
    · simp [updateAssoc, lookupAssoc, h]
    · simp [updateAssoc, lookupAssoc, h, ih]

/-- Overwriting with the same content twice equals overwriting once. -/
theorem updateAssoc_idem (p : FsPath) (c : String) :
    ∀ l, updateAssoc p c (updateAssoc p c l) = updateAssoc p c l := by
  intro l
  induction l with
  | nil => simp [updateAssoc]
  | cons qd rest ih =>
    obtain ⟨q, d⟩ := qd
    by_cases h : q = p
    · simp [updateAssoc, h]
    · simp [updateAssoc, h, ih]

/-- Writing a path that is absent appends the new file at the end. -/
theorem updateAssoc_of_not_mem (p : FsPath) (c : String) :
    ∀ l, lookupAssoc p l = none → updateAssoc p c l = l ++ [(p, c)] := by
  intro l
  induction l with
  | nil => intro _; rfl
  | cons qd rest ih =>
    obtain ⟨q, d⟩ := qd
    intro h
    by_cases hq : q = p
    · simp [lookupAssoc, hq] at h
    · simp only [lookupAssoc, if_neg hq] at h
      simp [updateAssoc, hq, ih h]

/-- Removing a path that occurs only as the appended last file restores the
original store. -/
theorem removeAssoc_append_self (p : FsPath) (c : String) :
    ∀ l, lookupAssoc p l = none → removeAssoc p (l ++ [(p, c)]) = l := by
  intro l
  induction l with
  | nil => intro _; simp [removeAssoc]
  | cons qd rest ih =>
    obtain ⟨q, d⟩ := qd
    intro h
    by_cases hq : q = p
    · simp [lookupAssoc, hq] at h
    · simp only [lookupAssoc, if_neg hq] at h
      simp [removeAssoc, hq, ih h]

/-- A path absent from the key list is not found. -/
theorem lookupAssoc_eq_none_of_not_mem (p : FsPath) :
    ∀ l : List (FsPath × String), p ∉ l.map Prod.fst → lookupAssoc p l = none := by
  intro l
  induction l with
  | nil => intro _; rfl
  | cons qd rest ih =>
    obtain ⟨q, d⟩ := qd
    intro h
    simp only [List.map_cons, List.mem_cons, not_or] at h
    simp only [lookupAssoc, if_neg (fun hc : q = p => h.1 hc.symm)]
    exact ih h.2

/-- With no duplicate paths in the store, removal makes the path absent. -/
theorem lookupAssoc_removeAssoc_self (p : FsPath) :
    ∀ l : List (FsPath × String), (l.map Prod.fst).Nodup →
      lookupAssoc p (removeAssoc p l) = none := by
  intro l
  induction l with
  | nil => intro _; rfl
  | cons qd rest ih =>
    obtain ⟨q, d⟩ := qd
    intro hnd
    simp only [List.map_cons, List.nodup_cons] at hnd
    by_cases hq : q = p
    · subst hq
      simp only [removeAssoc, if_pos rfl]
      exact lookupAssoc_eq_none_of_not_mem q rest hnd.1
    · simp only [removeAssoc, if_neg hq, lookupAssoc, if_neg hq]
      exact ih hnd.2

/-- The descriptor path of a known target is never empty. -/
theorem get_autostart_path_ne_nil (env : AutoEnv) (p : FsPath)
    (h : get_autostart_path env = some p) : p ≠ [] := by
  intro hnil
  subst hnil
  obtain ⟨pl, hd, cd, db⟩ := env
  unfold get_autostart_path at h
  cases pl with
  | macos => cases hd <;> simp at h
  | linux sysd =>
    cases sysd with
    | false => cases cd <;> simp at h
    | true => cases hd <;> simp at h
  | other => exact Option.noConfusion h

/-- Every member of `prefixesOf r` is at most as long as `r`. -/
theorem length_le_of_mem_prefixesOf (q r : FsPath) (h : q ∈ prefixesOf r) :
    q.length ≤ r.length := by
  unfold prefixesOf at h
  simp only [List.mem_map, List.mem_range] at h
  obtain ⟨i, hi, rfl⟩ := h
  simp [List.length_take]

/-- Creating the parent directories of an absent non-empty path does not
create the path itself. -/
theorem not_mem_createDirAll_dirs (p : FsPath) (fs : FsState)
    (hp : p ∉ fs.dirs) (hne : p ≠ []) :
    p ∉ (createDirAll p.dropLast fs).dirs := by
  unfold createDirAll
  simp only [List.mem_append, not_or]
  refine ⟨hp, fun hmem => ?_⟩
  have h1 : p ∈ prefixesOf p.dropLast := (List.mem_filter.mp hmem).1
  have h2 := length_le_of_mem_prefixesOf p p.dropLast h1
  rw [List.length_dropLast] at h2
  have h4 : p.length ≠ 0 := fun h0 => hne (List.length_eq_zero.mp h0)
  omega

/-- After `create_dir_all`, every ancestor exists. -/
theorem mem_dirs_after_createDirAll (q : FsPath) (fs : FsState) :
    ∀ x ∈ prefixesOf q, x ∈ (createDirAll q fs).dirs := by
  intro x hx
  unfold createDirAll
  simp only [List.mem_append]
  by_cases hxd : x ∈ fs.dirs
  · exact Or.inl hxd
  · exact Or.inr (List.mem_filter.mpr ⟨hx, by simpa using hxd⟩)

/-- When every ancestor already exists, `create_dir_all` changes nothing. -/
theorem createDirAll_eq_self (q : FsPath) (fs : FsState)
    (h : ∀ x ∈ prefixesOf q, x ∈ fs.dirs) : createDirAll q fs = fs := by
  unfold createDirAll
  have hf : (prefixesOf q).filter (fun x => decide (x ∉ fs.dirs)) = [] := by
    rw [List.filter_eq_nil_iff]
    intro a ha
    simpa using h a ha
  rw [hf, List.append_nil]

/-- Overwriting the same file with the same content twice equals doing it
once. -/
theorem writeFile_idem (p : FsPath) (c : String) (fs : FsState) :
    writeFile p c (writeFile p c fs) = writeFile p c fs := by
  unfold writeFile
  rw [updateAssoc_idem]

/-- Claim C2: on a platform with a known target (and a store without
duplicate or directory-shadowed descriptor entries), a successful `enable`
makes `is_enabled` true and a successful `disable` makes it false. -/
theorem C2_enable_disable (env : AutoEnv) (fs : FsState) (p : FsPath)
    (hp : get_autostart_path env = some p)
    (hnd : (fs.files.map Prod.fst).Nodup) (hdir : p ∉ fs.dirs) :
    ((enable env fs).1 = .ok () → is_enabled env (enable env fs).2 = true) ∧
      ((disable env fs).1 = .ok () → is_enabled env (disable env fs).2 = false) := by
  constructor
  · intro hok
    unfold enable at hok ⊢
    rw [hp] at hok ⊢
    dsimp only at hok ⊢
    cases hc : get_autostart_content env with
    | error e =>
      rw [hc] at hok
      exact absurd hok (by simp)
    | ok c =>
      dsimp only
      unfold is_enabled
      rw [hp]
      unfold pathExistsB writeFile
      simp [lookupAssoc_updateAssoc_self]
  · intro hok
    unfold disable at hok ⊢
    rw [hp] at hok ⊢
    dsimp only at hok ⊢
    by_cases hex : pathExistsB p fs
    · rw [if_pos hex] at hok ⊢
      by_cases hl : (lookupAssoc p fs.files).isSome
      · rw [if_pos hl]
        unfold is_enabled
        rw [hp]
        unfold pathExistsB
        simp [lookupAssoc_removeAssoc_self p fs.files hnd, hdir]
      · rw [if_neg hl] at hok
        exact absurd hok (by simp)
    · rw [if_neg hex]
      unfold is_enabled
      rw [hp]
      simpa using hex

/-- The macOS environment with a resolvable daemon binary. -/
def envMac : AutoEnv :=
  ⟨.macos, some ["Users", "u"], none, some "/usr/local/bin/hazelnutd"⟩

/-- The descriptor path of `envMac`. -/
def pMac : FsPath :=
  ["Users", "u", "Library", "LaunchAgents", "me.ricardodantas.hazelnutd.plist"]

/-- An empty file system. -/
def fsEmpty : FsState := ⟨[], []⟩

/-- A file system in which the descriptor exists with stale content. -/
def fsStale : FsState := ⟨[], [(pMac, "stale")]⟩

/-- Witness for claim C2 at concrete states: enabling on an empty system
turns `is_enabled` on, disabling a system with a descriptor turns it
off. -/
theorem C2_witness :
    is_enabled envMac (enable envMac fsEmpty).2 = true ∧
      is_enabled envMac (disable envMac fsStale).2 = false :=
  ⟨(C2_enable_disable envMac fsEmpty pMac rfl (by decide) (by decide)).1 rfl,
    (C2_enable_disable envMac fsStale pMac rfl (by decide) (by decide)).2 rfl⟩

/-- Claim C4, amended: an unresolvable binary makes `enable` fail with
`NotFound` and no descriptor file is written or modified — but the parent
directory creation has already happened by then (the claim's "no directory
is created" does not hold of the code, which creates the parent directory
before resolving the binary). -/
theorem C4_enable_notFound (env : AutoEnv) (fs : FsState) (p : FsPath)
    (hp : get_autostart_path env = some p) (hb : env.daemonBinary = none) :
    (enable env fs).1 = .error .notFound ∧ (enable env fs).2.files = fs.files := by
  unfold enable
  rw [hp]
  have hc : get_autostart_content env = .error .notFound := by
    unfold get_autostart_content
    rw [hb]
  rw [hc]
  exact ⟨rfl, rfl⟩

/-- The macOS environment whose daemon binary cannot be resolved. -/
def envMacNoBin : AutoEnv := ⟨.macos, some ["Users", "u"], none, none⟩

/-- Claim C4 fails as literally stated: on a fresh file system, the failing
`enable` call has already created directories (the parent chain of the
descriptor) even though it surfaces `NotFound` and writes no file. -/
theorem C4_counterexample :
    (enable envMacNoBin fsEmpty).1 = .error .notFound ∧
      (enable envMacNoBin fsEmpty).2.dirs ≠ [] := by
  exact ⟨rfl, by decide⟩

/-- Witness for claim C4 (amended) at a concrete input. -/
theorem C4_witness :
    (enable envMacNoBin fsEmpty).1 = .error .notFound ∧
      (enable envMacNoBin fsEmpty).2.files = fsEmpty.files :=
  C4_enable_notFound envMacNoBin fsEmpty pMac rfl rfl

/-- Claim C5: with a known target and a resolved binary, `enable` succeeds,
a second `enable` succeeds and leaves the state of the first call exactly
(the same descriptor bytes are written both times), and the descriptor
holds the rendered content. -/
theorem C5_enable_idempotent (env : AutoEnv) (fs : FsState) (p : FsPath) (b : String)
    (hp : get_autostart_path env = some p) (hb : env.daemonBinary = some b) :
    (enable env fs).1 = .ok () ∧
      (enable env (enable env fs).2).1 = .ok () ∧
      (enable env (enable env fs).2).2 = (enable env fs).2 ∧
      ∃ c, get_autostart_content env = .ok c ∧
        lookupAssoc p (enable env fs).2.files = some c := by
  have hc : ∃ c, get_autostart_content env = .ok c := by
    unfold get_autostart_content
    rw [hb]
    cases hpl : env.platform with
    | macos => exact ⟨_, rfl⟩
    | linux sysd => exact ⟨_, rfl⟩
    | other =>
      unfold get_autostart_path at hp
      rw [hpl] at hp
      cases hp
  obtain ⟨c, hc⟩ := hc
  unfold enable
  rw [hp, hc]
  dsimp only
  have hsub : ∀ x ∈ prefixesOf p.dropLast,
      x ∈ (writeFile p c (createDirAll p.dropLast fs)).dirs :=
    fun x hx => mem_dirs_after_createDirAll p.dropLast fs x hx
  rw [createDirAll_eq_self p.dropLast _ hsub, writeFile_idem]
  exact ⟨rfl, rfl, rfl, ⟨c, rfl, lookupAssoc_updateAssoc_self p c _⟩⟩

/-- Witness for claim C5 at a concrete state: both calls succeed and the
second changes nothing. -/
theorem C5_witness :
    (enable envMac fsEmpty).1 = .ok () ∧
      (enable envMac (enable envMac fsEmpty).2).2 = (enable envMac fsEmpty).2 :=
  ⟨(C5_enable_idempotent envMac fsEmpty pMac "/usr/local/bin/hazelnutd" rfl rfl).1,
    (C5_enable_idempotent envMac fsEmpty pMac "/usr/local/bin/hazelnutd" rfl rfl).2.2.1⟩

/-- Claim C8: with a known target and no descriptor present, `disable`
succeeds without touching the state, and the target stays disabled. -/
theorem C8_disable_noop (env : AutoEnv) (fs : FsState) (p : FsPath)
    (hp : get_autostart_path env = some p) (hne : pathExistsB p fs = false) :
    disable env fs = (.ok (), fs) ∧ is_enabled env (disable env fs).2 = false := by
  unfold disable
  rw [hp]
  dsimp only
  rw [hne]
  simp only [Bool.false_eq_true, if_false]
  constructor
  · trivial
  · unfold is_enabled
    rw [hp]
    exact hne

/-- Witness for claim C8 at a concrete state. -/
theorem C8_witness : disable envMac fsEmpty = (.ok (), fsEmpty) :=
  (C8_disable_noop envMac fsEmpty pMac rfl rfl).1

/-- A known target and rendered content give `enable` its success shape. -/
theorem enable_ok_shape (env : AutoEnv) (fs : FsState) (p : FsPath) (c : String)
    (hp : get_autostart_path env = some p) (hc : get_autostart_content env = .ok c) :
    enable env fs = (.ok (), writeFile p c (createDirAll p.dropLast fs)) := by
  unfold enable
  rw [hp]
  dsimp only
  rw [hc]

/-- A known target and a content error give `enable` its failure shape. -/
theorem enable_err_shape (env : AutoEnv) (fs : FsState) (p : FsPath) (e : IoErr)
    (hp : get_autostart_path env = some p) (hc : get_autostart_content env = .error e) :
    enable env fs = (.error e, createDirAll p.dropLast fs) := by
  unfold enable
  rw [hp]
  dsimp only
  rw [hc]

/-- A known target with an existing descriptor file gives `disable` its
removing shape. -/
theorem disable_file_shape (env : AutoEnv) (fs : FsState) (p : FsPath)
    (hp : get_autostart_path env = some p)
    (hl : (lookupAssoc p fs.files).isSome = true) :
    disable env fs = (.ok (), { fs with files := removeAssoc p fs.files }) := by
  unfold disable
  rw [hp]
  dsimp only
  have hex : pathExistsB p fs = true := by
    unfold pathExistsB
    simp [hl]
  rw [if_pos hex, if_pos hl]

/-- An absent descriptor decomposes into an absent file and an absent
directory. -/
theorem pathExistsB_eq_false (p : FsPath) (fs : FsState) :
    pathExistsB p fs = false ↔ (lookupAssoc p fs.files = none ∧ p ∉ fs.dirs) := by
  unfold pathExistsB
  cases hls : lookupAssoc p fs.files <;> simp [hls]

/-- Claim C6, amended: `toggle` returns the new enabled state (the negation
of the old one); two successful toggles from a disabled state restore the
descriptor file store and the disabled state exactly; and two successful
toggles from a state enabled with exactly the rendered content restore the
rendered descriptor and the enabled state. (Starting from a descriptor
whose bytes differ from the rendered content, the second toggle rewrites it
with the rendered bytes instead of restoring it — see the
counterexample.) -/
theorem C6_toggle :
    (∀ env fs b, (toggle env fs).1 = .ok b → b = !(is_enabled env fs)) ∧
      (∀ env fs p, get_autostart_path env = some p → is_enabled env fs = false →
        (toggle env fs).1 = .ok true →
        (toggle env (toggle env fs).2).1 = .ok false ∧
          (toggle env (toggle env fs).2).2.files = fs.files ∧
          is_enabled env (toggle env (toggle env fs).2).2 = false) ∧
      (∀ env fs p c, get_autostart_path env = some p →
        (fs.files.map Prod.fst).Nodup → p ∉ fs.dirs →
        get_autostart_content env = .ok c → lookupAssoc p fs.files = some c →
        (toggle env fs).1 = .ok false ∧
          (toggle env (toggle env fs).2).1 = .ok true ∧
          lookupAssoc p (toggle env (toggle env fs).2).2.files = some c ∧
          is_enabled env (toggle env (toggle env fs).2).2 = true) := by
  refine ⟨fun env fs b h => ?_, fun env fs p hp he h1 => ?_, fun env fs p c hp hnd hdir hc hl => ?_⟩
  · unfold toggle at h
    by_cases he : is_enabled env fs
    · rw [if_pos he] at h
      rcases hd : disable env fs with ⟨r, s⟩
      rw [hd] at h
      cases r with
      | ok u =>
        dsimp only at h
        rw [he]
        exact (Except.ok.injEq ..).mp h.symm ▸ rfl
      | error e =>
        dsimp only at h
        exact absurd h (by simp)
    · rw [if_neg he] at h
      rcases hd : enable env fs with ⟨r, s⟩
      rw [hd] at h
      cases r with
      | ok u =>
        dsimp only at h
        rw [Bool.of_not_eq_true he]
        exact (Except.ok.injEq ..).mp h.symm ▸ rfl
      | error e =>
        dsimp only at h
        exact absurd h (by simp)
  · obtain ⟨hlnone, hdnone⟩ := (pathExistsB_eq_false p fs).mp (by
      have := he
      unfold is_enabled at this
      rw [hp] at this
      exact this)
    cases hc : get_autostart_content env with
    | error e =>
      exfalso
      unfold toggle at h1
      rw [if_neg (by simp [he])] at h1
      rw [enable_err_shape env fs p e hp hc] at h1
      exact absurd h1 (by simp)
    | ok c =>
      have ht1 : toggle env fs = (.ok true, writeFile p c (createDirAll p.dropLast fs)) := by
        unfold toggle
        rw [if_neg (by simp [he])]
        rw [enable_ok_shape env fs p c hp hc]
      rw [ht1]
      dsimp only
      have hw : (writeFile p c (createDirAll p.dropLast fs)).files
          = fs.files ++ [(p, c)] := by
        unfold writeFile createDirAll
        dsimp only
        exact updateAssoc_of_not_mem p c fs.files hlnone
      have hl2 : (lookupAssoc p (writeFile p c (createDirAll p.dropLast fs)).files).isSome
          = true := by
        unfold writeFile createDirAll
        dsimp only
        rw [lookupAssoc_updateAssoc_self]
        rfl
      have he2 : is_enabled env (writeFile p c (createDirAll p.dropLast fs)) = true := by
        unfold is_enabled
        rw [hp]
        unfold pathExistsB
        simp [hl2]
      have ht2 : toggle env (writeFile p c (createDirAll p.dropLast fs))
          = (.ok false,
              { writeFile p c (createDirAll p.dropLast fs) with
                  files := removeAssoc p (writeFile p c (createDirAll p.dropLast fs)).files }) := by
        unfold toggle
        rw [if_pos he2, disable_file_shape env _ p hp hl2]
      rw [ht2]
      dsimp only
      have hfiles : removeAssoc p (writeFile p c (createDirAll p.dropLast fs)).files
          = fs.files := by
        rw [hw]
        exact removeAssoc_append_self p c fs.files hlnone
      refine ⟨rfl, hfiles, ?_⟩
      unfold is_enabled
      rw [hp]
      unfold pathExistsB
      dsimp only
      rw [hfiles, hlnone]
      have hpne := get_autostart_path_ne_nil env p hp
      have hnd2 : p ∉ (createDirAll p.dropLast fs).dirs :=
        not_mem_createDirAll_dirs p fs hdnone hpne
      simp
      exact hnd2
  · have he1 : is_enabled env fs = true := by
      unfold is_enabled
      rw [hp]
      unfold pathExistsB
      simp [hl]
    have ht1 : toggle env fs = (.ok false, { fs with files := removeAssoc p fs.files }) := by
      unfold toggle
      rw [if_pos he1, disable_file_shape env fs p hp (by simp [hl])]
    rw [ht1]
    dsimp only
    have hlr : lookupAssoc p (removeAssoc p fs.files) = none :=
      lookupAssoc_removeAssoc_self p fs.files hnd
    have he2 : is_enabled env { fs with files := removeAssoc p fs.files } = false := by
      unfold is_enabled
      rw [hp]
      unfold pathExistsB
      dsimp only
      rw [hlr]
      simp [hdir]
    have ht2 : toggle env { fs with files := removeAssoc p fs.files }
        = (.ok true,
            writeFile p c (createDirAll p.dropLast { fs with files := removeAssoc p fs.files })) := by
      unfold toggle
      rw [if_neg (by simp [he2])]
      rw [enable_ok_shape env _ p c hp hc]
    rw [ht2]
    dsimp only
    refine ⟨rfl, rfl, ?_, ?_⟩
    · unfold writeFile createDirAll
      dsimp only
      exact lookupAssoc_updateAssoc_self p c _
    · unfold is_enabled
      rw [hp]
      unfold pathExistsB writeFile createDirAll
      dsimp only
      rw [lookupAssoc_updateAssoc_self]
      rfl

/-- Claim C6 fails as literally stated: starting from a descriptor whose
content is the stale bytes "stale", two successful toggles end with the
freshly rendered plist, not with the original bytes, so the descriptor file
is not returned to its original state. -/
theorem C6_counterexample :
    (toggle envMac fsStale).1 = .ok false ∧
      (toggle envMac (toggle envMac fsStale).2).1 = .ok true ∧
      lookupAssoc pMac (toggle envMac (toggle envMac fsStale).2).2.files
        ≠ lookupAssoc pMac fsStale.files := by
  refine ⟨rfl, rfl, ?_⟩
  decide

/-- Witness for claim C6 (amended) at a concrete state: a disabled system
toggled twice ends disabled with its file store intact. -/
theorem C6_witness :
    (toggle envMac (toggle envMac fsEmpty).2).1 = .ok false ∧
      (toggle envMac (toggle envMac fsEmpty).2).2.files = fsEmpty.files :=
  ⟨(C6_toggle.2.1 envMac fsEmpty pMac rfl rfl rfl).1,
    (C6_toggle.2.1 envMac fsEmpty pMac rfl rfl rfl).2.1⟩
